import Mathlib

/-!
Shallow embedding of the sbat revocation core (src/sbat/src/revocations.rs and
src/sbat/src/result.rs), together with the CSV parsing infrastructure those
files use.  Byte buffers are modelled as `List Nat`; ASCII text slices
(`AsciiStr`) are the corresponding byte lists.  The `Generation` integer is a
`Nat` bounded by `2 ^ 32` at parse time (Rust `u32`).
-/

namespace Sbat

/-- Embedding of `Error` from src/sbat/src/result.rs: the five SBAT parse
errors.  `specialChar` carries the offending byte. -/
inductive Error where
  | invalidAscii : Error
  | specialChar : Nat → Error
  | invalidGeneration : Error
  | tooManyRecords : Error
  | tooFewFields : Error
deriving DecidableEq, Repr

/-- Embedding of `Component`: a name (borrowed ASCII byte string) paired with
a generation number.  Equality is byte-exact, as in the Rust `PartialEq`
derive. -/
structure Component where
  name : List Nat
  generation : Nat
deriving DecidableEq, Repr

/-- Modelled from the spec: the `Veclike` bounded-storage capability
(crate::vec::Veclike is not under src/).  A bounded appendable sequence with
a fixed capacity, supporting `clear`, `try_push` that fails explicitly when
full, and a read-only slice view. -/
structure Store where
  cap : Nat
  data : List Component
deriving DecidableEq, Repr

/-- Modelled from the spec: `Veclike::clear` empties the sequence, keeping
its capacity. -/
def Store.clear (s : Store) : Store :=
  { s with data := [] }

/-- Modelled from the spec: push-with-capacity-check.  Fails with
`TooManyRecords` when the sequence is full (record count would exceed the
destination storage capacity). -/
def Store.tryPush (s : Store) (c : Component) : Except Error Store :=
  if s.data.length < s.cap then .ok { s with data := s.data ++ [c] }
  else .error .tooManyRecords

/-- Embedding of `Revocations` from src/sbat/src/revocations.rs: an optional
date (ASCII bytes) plus the component storage. -/
structure Revocations where
  date : Option (List Nat)
  components : Store
deriving DecidableEq, Repr

/-- Embedding of `MAX_HEADER_FIELDS` from src/sbat/src/revocations.rs. -/
def MAX_HEADER_FIELDS : Nat := 3

/-- Modelled from the spec: the fixed allow-list of special characters
accepted by the CSV parser (crate::csv is not under src/): limited
punctuation, deliberately excluding comma, quote, backslash and escape
characters. -/
def ALLOWED_SPECIAL_CHARS : List Nat := [45, 46, 47, 58, 95, 126]

/-- ASCII alphanumeric test on a byte. -/
def isAlphanumericByte (b : Nat) : Bool :=
  (48 ≤ b && b ≤ 57) || (65 ≤ b && b ≤ 90) || (97 ≤ b && b ≤ 122)

/-- Modelled from the spec: per-byte character validation of the CSV parser.
Non-ASCII bytes fail with `InvalidAscii`; ASCII bytes outside the
alphanumeric set and the allow-list fail with `SpecialChar`. -/
def validateByte (b : Nat) : Option Error :=
  if 128 ≤ b then some .invalidAscii
  else if isAlphanumericByte b || ALLOWED_SPECIAL_CHARS.contains b then none
  else some (.specialChar b)

/-- First validation error among the bytes of one field, if any. -/
def validateField (f : List Nat) : Option Error :=
  f.findSome? validateByte

/-- Split a byte list on a separator byte.  Splitting the empty list yields
one empty segment, matching the usual split semantics. -/
def splitOnByte (sep : Nat) : List Nat → List (List Nat)
  | [] => [[]]
  | b :: rest =>
    if b = sep then [] :: splitOnByte sep rest
    else
      match splitOnByte sep rest with
      | [] => [[b]]
      | f :: fs => (b :: f) :: fs

/-- Modelled from the spec: tolerate `\r\n` record separators by stripping a
trailing carriage return from a record. -/
def stripCR (rec : List Nat) : List Nat :=
  if rec.getLast? = some 13 then rec.dropLast else rec

/-- Modelled from the spec: record extraction of the CSV parser.  Empty
input holds no records; otherwise records are separated by newline bytes. -/
def recordsOf (input : List Nat) : List (List Nat) :=
  if input = [] then [] else (splitOnByte 10 input).map stripCR

/-- Modelled from the spec: field extraction of one record.  Fields are
split on commas, keeping up to `MAX_HEADER_FIELDS` fields (extra fields are
truncated). -/
def fieldsOf (rec : List Nat) : List (List Nat) :=
  (splitOnByte 44 rec).take MAX_HEADER_FIELDS

/-- First character-validation error in a record, scanning fields in order. -/
def validateRecord (rec : List Nat) : Option Error :=
  (fieldsOf rec).findSome? validateField

/-- Modelled from the spec: `Record::get_field` returns the field at the
given index when present. -/
def getField (fs : List (List Nat)) (i : Nat) : Option (List Nat) :=
  fs.get? i

/-- Modelled from the spec: generation-number parsing.  A non-negative
base-10 integer with digits only, no leading zeros beyond a single `0`,
fitting in 32 bits. -/
def parseGeneration (f : List Nat) : Option Nat :=
  if f = [] then none
  else if !f.all (fun b => 48 ≤ b && b ≤ 57) then none
  else if 1 < f.length && f.head? = some 48 then none
  else
    let v := f.foldl (fun acc b => acc * 10 + (b - 48)) 0
    if v < 2 ^ 32 then some v else none

/-- Modelled from the spec: `Record::get_field_as_generation`.  A missing
field yields `Ok(None)`; a present field that fails generation parsing
yields `InvalidGeneration`. -/
def getFieldAsGeneration (fs : List (List Nat)) (i : Nat) :
    Except Error (Option Nat) :=
  match getField fs i with
  | none => .ok none
  | some f =>
    match parseGeneration f with
    | none => .error .invalidGeneration
    | some g => .ok (some g)

/-- Embedding of the record loop of `Revocations::parse`: the CSV parser
walks the records in a single forward pass, validating each record's
characters and then running the parse closure of revocations.rs lines 74-86
(set `date` from the first record's third field, then push the record's
name and generation as a `Component`).  The first error aborts, returning
the state mutated so far alongside the error. -/
def parseGo : List (List Nat) → Bool → Revocations → Revocations × Option Error
  | [], _, r => (r, none)
  | rec :: rest, first, r =>
    match validateRecord rec with
    | some e => (r, some e)
    | none =>
      let fs := fieldsOf rec
      let r1 := if first then { r with date := getField fs 2 } else r
      match getField fs 0 with
      | none => (r1, some Error.tooFewFields)
      | some name =>
        match getFieldAsGeneration fs 1 with
        | .error e => (r1, some e)
        | .ok none => (r1, some Error.tooFewFields)
        | .ok (some g) =>
          match r1.components.tryPush ⟨name, g⟩ with
          | .error e => (r1, some e)
          | .ok st => parseGo rest false { r1 with components := st }

/-- Embedding of `Revocations::new` (revocations.rs lines 58-63): wrap the
caller-supplied storage as-is and set `date` to `None`. -/
def Revocations.new (components : Store) : Revocations :=
  { components := components, date := none }

/-- Embedding of `Revocations::parse` (revocations.rs lines 69-87): clear
the component storage, then run the CSV parser with the per-record closure.
The returned pair is the state observable after the call together with
`none` on success or the first error. -/
def Revocations.parse (r : Revocations) (input : List Nat) :
    Revocations × Option Error :=
  parseGo (recordsOf input) true { r with components := r.components.clear }

/-- Embedding of `Revocations::is_component_revoked` (revocations.rs lines
104-109): a linear `any` scan for a stored component with an equal name and
a strictly greater generation. -/
def Revocations.is_component_revoked (r : Revocations) (input : Component) :
    Bool :=
  r.components.data.any fun revoked_component =>
    input.name == revoked_component.name &&
      input.generation < revoked_component.generation

/-- Embedding of `Revocations::revoked_components` (revocations.rs lines
140-142): the slice view of the stored components. -/
def Revocations.revoked_components (r : Revocations) : List Component :=
  r.components.data

/-- Modelled from the spec: `Vendor` (crate::metadata is not under src/) is
opaque auxiliary metadata, parsed but not evaluated by the revocation
algorithm. -/
structure Vendor where
  data : List (List Nat)
deriving DecidableEq, Repr

/-- Modelled from the spec: `Entry` (crate::metadata is not under src/) is a
component plus its vendor information. -/
structure Entry where
  component : Component
  vendor : Vendor
deriving DecidableEq, Repr

/-- Modelled from the spec: `Metadata` (crate::metadata is not under src/)
is an ordered sequence of entries; `entries` is its accessor. -/
structure Metadata where
  entries : List Entry
deriving DecidableEq, Repr

/-- Embedding of `ValidationResult` from src/sbat/src/revocations.rs. -/
inductive ValidationResult where
  | Allowed : ValidationResult
  | Revoked : Entry → ValidationResult
deriving DecidableEq, Repr

/-- Embedding of `Revocations::validate_metadata` (revocations.rs lines
119-135): find the first metadata entry whose component is revoked. -/
def Revocations.validate_metadata (r : Revocations) (m : Metadata) :
    ValidationResult :=
  match m.entries.find? (fun entry => r.is_component_revoked entry.component)
    with
  | some revoked_entry => .Revoked revoked_entry
  | none => .Allowed

/-- ASCII string literals as byte lists, for concrete test inputs. -/
def bytes (s : String) : List Nat :=
  s.data.map Char.toNat

/-- The component-storage effect of the record loop, with the date handling
stripped out: used to state that `parseGo` mutates the storage independently
of the date field. -/
def componentsGo : List (List Nat) → Store → Store × Option Error
  | [], st => (st, none)
  | rec :: rest, st =>
    match validateRecord rec with
    | some e => (st, some e)
    | none =>
      match getField (fieldsOf rec) 0 with
      | none => (st, some Error.tooFewFields)
      | some name =>
        match getFieldAsGeneration (fieldsOf rec) 1 with
        | .error e => (st, some e)
        | .ok none => (st, some Error.tooFewFields)
        | .ok (some g) =>
          match st.tryPush ⟨name, g⟩ with
          | .error e => (st, some e)
          | .ok st2 => componentsGo rest st2

/-- A record is well-formed when its characters validate, it has a name
field, and its second field parses as a generation number. -/
def recordOk (rec : List Nat) : Bool :=
  (validateRecord rec).isNone &&
  (getField (fieldsOf rec) 0).isSome &&
  (match getFieldAsGeneration (fieldsOf rec) 1 with
   | .ok (some _) => true
   | _ => false)

/-- The date field that `parse` leaves behind: the third field of the first
record when the input has a first record whose characters validate, the
prior date otherwise. -/
def parseDateResult (d : Option (List Nat)) (input : List Nat) :
    Option (List Nat) :=
  match recordsOf input with
  | [] => d
  | rec :: _ =>
    match validateRecord rec with
    | none => getField (fieldsOf rec) 2
    | some _ => d

theorem tryPush_ok_cap {st : Store} {c : Component} {st2 : Store}
    (h : st.tryPush c = .ok st2) : st2.cap = st.cap := by
  unfold Store.tryPush at h
  split at h
  · cases h; rfl
  · cases h

theorem tryPush_ok_data {st : Store} {c : Component} {st2 : Store}
    (h : st.tryPush c = .ok st2) : st2.data = st.data ++ [c] := by
  unfold Store.tryPush at h
  split at h
  · cases h; rfl
  · cases h

theorem tryPush_error_eq {st : Store} {c : Component} {e : Error}
    (h : st.tryPush c = .error e) :
    e = .tooManyRecords ∧ st.cap ≤ st.data.length := by
  unfold Store.tryPush at h
  split at h
  · cases h
  · cases h
    exact ⟨rfl, Nat.le_of_not_lt (by omega)⟩

/-- The record loop with `first = false` never touches the date: it is the
pure storage fold `componentsGo`. -/
theorem parseGo_false_spec (recs : List (List Nat)) (r : Revocations) :
    parseGo recs false r =
      ({ r with components := (componentsGo recs r.components).1 },
        (componentsGo recs r.components).2) := by
  induction recs generalizing r with
  | nil => rfl
  | cons rec rest ih =>
    cases h1 : validateRecord rec with
    | some e => simp [parseGo, componentsGo, h1]
    | none =>
      cases h2 : getField (fieldsOf rec) 0 with
      | none => simp [parseGo, componentsGo, h1, h2]
      | some name =>
        cases h3 : getFieldAsGeneration (fieldsOf rec) 1 with
        | error e => simp [parseGo, componentsGo, h1, h2, h3]
        | ok og =>
          cases og with
          | none => simp [parseGo, componentsGo, h1, h2, h3]
          | some g =>
            cases h4 : Store.tryPush r.components ⟨name, g⟩ with
            | error e => simp [parseGo, componentsGo, h1, h2, h3, h4]
            | ok st2 => simp [parseGo, componentsGo, h1, h2, h3, h4, ih]

/-- With `first = true` the storage and the returned error still follow
`componentsGo`; only the date is handled differently. -/
theorem parseGo_true_components (recs : List (List Nat)) (r : Revocations) :
    (parseGo recs true r).1.components = (componentsGo recs r.components).1 ∧
    (parseGo recs true r).2 = (componentsGo recs r.components).2 := by
  cases recs with
  | nil => exact ⟨rfl, rfl⟩
  | cons rec rest =>
    cases h1 : validateRecord rec with
    | some e => simp [parseGo, componentsGo, h1]
    | none =>
      cases h2 : getField (fieldsOf rec) 0 with
      | none => simp [parseGo, componentsGo, h1, h2]
      | some name =>
        cases h3 : getFieldAsGeneration (fieldsOf rec) 1 with
        | error e => simp [parseGo, componentsGo, h1, h2, h3]
        | ok og =>
          cases og with
          | none => simp [parseGo, componentsGo, h1, h2, h3]
          | some g =>
            cases h4 : Store.tryPush r.components ⟨name, g⟩ with
            | error e => simp [parseGo, componentsGo, h1, h2, h3, h4]
            | ok st2 =>
              simp [parseGo, componentsGo, h1, h2, h3, h4, parseGo_false_spec]

theorem tryPush_ok_lt {st : Store} {c : Component} {st2 : Store}
    (h : st.tryPush c = .ok st2) : st.data.length < st.cap := by
  unfold Store.tryPush at h
  split at h
  · assumption
  · cases h

/-- The record loop never changes the storage capacity. -/
theorem componentsGo_cap (recs : List (List Nat)) (st : Store) :
    (componentsGo recs st).1.cap = st.cap := by
  induction recs generalizing st with
  | nil => rfl
  | cons rec rest ih =>
    cases h1 : validateRecord rec with
    | some e => simp [componentsGo, h1]
    | none =>
      cases h2 : getField (fieldsOf rec) 0 with
      | none => simp [componentsGo, h1, h2]
      | some name =>
        cases h3 : getFieldAsGeneration (fieldsOf rec) 1 with
        | error e => simp [componentsGo, h1, h2, h3]
        | ok og =>
          cases og with
          | none => simp [componentsGo, h1, h2, h3]
          | some g =>
            cases h4 : st.tryPush ⟨name, g⟩ with
            | error e => simp [componentsGo, h1, h2, h3, h4]
            | ok st2 =>
              simp only [componentsGo, h1, h2, h3, h4]
              rw [ih st2, tryPush_ok_cap h4]

/-- The record loop keeps the storage within its capacity. -/
theorem componentsGo_le (recs : List (List Nat)) (st : Store)
    (h : st.data.length ≤ st.cap) :
    (componentsGo recs st).1.data.length ≤ st.cap := by
  induction recs generalizing st with
  | nil => simpa [componentsGo]
  | cons rec rest ih =>
    cases h1 : validateRecord rec with
    | some e => simpa [componentsGo, h1]
    | none =>
      cases h2 : getField (fieldsOf rec) 0 with
      | none => simpa [componentsGo, h1, h2]
      | some name =>
        cases h3 : getFieldAsGeneration (fieldsOf rec) 1 with
        | error e => simpa [componentsGo, h1, h2, h3]
        | ok og =>
          cases og with
          | none => simpa [componentsGo, h1, h2, h3]
          | some g =>
            cases h4 : st.tryPush ⟨name, g⟩ with
            | error e => simpa [componentsGo, h1, h2, h3, h4]
            | ok st2 =>
              simp only [componentsGo, h1, h2, h3, h4]
              have hlt := tryPush_ok_lt h4
              have hdata := tryPush_ok_data h4
              have hcap := tryPush_ok_cap h4
              have h2le : st2.data.length ≤ st2.cap := by
                rw [hdata, hcap]
                simp
                omega
              have := ih st2 h2le
              omega

/-- A successful run of the record loop pushes exactly one component per
record. -/
theorem componentsGo_ok_length (recs : List (List Nat)) (st : Store)
    (h : (componentsGo recs st).2 = none) :
    (componentsGo recs st).1.data.length = st.data.length + recs.length := by
  induction recs generalizing st with
  | nil => simp [componentsGo]
  | cons rec rest ih =>
    cases h1 : validateRecord rec with
    | some e => simp [componentsGo, h1] at h
    | none =>
      cases h2 : getField (fieldsOf rec) 0 with
      | none => simp [componentsGo, h1, h2] at h
      | some name =>
        cases h3 : getFieldAsGeneration (fieldsOf rec) 1 with
        | error e => simp [componentsGo, h1, h2, h3] at h
        | ok og =>
          cases og with
          | none => simp [componentsGo, h1, h2, h3] at h
          | some g =>
            cases h4 : st.tryPush ⟨name, g⟩ with
            | error e => simp [componentsGo, h1, h2, h3, h4] at h
            | ok st2 =>
              simp only [componentsGo, h1, h2, h3, h4] at h ⊢
              have hdata := tryPush_ok_data h4
              have := ih st2 h
              rw [this, hdata]
              simp [List.length_append]
              omega

/-- When every record is well-formed and the record count exceeds the
remaining capacity, the record loop fails with `TooManyRecords`. -/
theorem componentsGo_overflow (recs : List (List Nat)) (st : Store)
    (hok : ∀ rec ∈ recs, recordOk rec = true)
    (hle : st.data.length ≤ st.cap)
    (hgt : st.cap < st.data.length + recs.length) :
    (componentsGo recs st).2 = some Error.tooManyRecords := by
  induction recs generalizing st with
  | nil => simp at hgt; omega
  | cons rec rest ih =>
    have hrec : recordOk rec = true := hok rec (by simp)
    cases h1 : validateRecord rec with
    | some e => simp [recordOk, h1] at hrec
    | none =>
      cases h2 : getField (fieldsOf rec) 0 with
      | none => simp [recordOk, h1, h2] at hrec
      | some name =>
        cases h3 : getFieldAsGeneration (fieldsOf rec) 1 with
        | error e => simp [recordOk, h1, h2, h3] at hrec
        | ok og =>
          cases og with
          | none => simp [recordOk, h1, h2, h3] at hrec
          | some g =>
            cases h4 : st.tryPush ⟨name, g⟩ with
            | error e =>
              obtain ⟨he, hfull⟩ := tryPush_error_eq h4
              simp [componentsGo, h1, h2, h3, h4, he]
            | ok st2 =>
              simp only [componentsGo, h1, h2, h3, h4]
              have hdata := tryPush_ok_data h4
              have hcap := tryPush_ok_cap h4
              apply ih st2
              · intro rec2 hmem
                exact hok rec2 (by simp [hmem])
              · rw [hdata, hcap]
                have := tryPush_ok_lt h4
                simp
                omega
              · rw [hdata, hcap]
                simp at hgt ⊢
                omega

/-- A character-validation failure on the first record aborts the parse
loop with the state untouched. -/
theorem parseGo_true_invalid (rec : List Nat) (rest : List (List Nat))
    (r : Revocations) (e : Error) (h : validateRecord rec = some e) :
    parseGo (rec :: rest) true r = (r, some e) := by
  simp [parseGo, h]

/-- Once the first record validates, the final date is its third field,
whatever happens afterwards. -/
theorem parseGo_true_valid_date (rec : List Nat) (rest : List (List Nat))
    (r : Revocations) (h : validateRecord rec = none) :
    (parseGo (rec :: rest) true r).1.date = getField (fieldsOf rec) 2 := by
  cases h2 : getField (fieldsOf rec) 0 with
  | none => simp [parseGo, h, h2]
  | some name =>
    cases h3 : getFieldAsGeneration (fieldsOf rec) 1 with
    | error e => simp [parseGo, h, h2, h3]
    | ok og =>
      cases og with
      | none => simp [parseGo, h, h2, h3]
      | some g =>
        cases h4 : Store.tryPush r.components ⟨name, g⟩ with
        | error e => simp [parseGo, h, h2, h3, h4]
        | ok st2 => simp [parseGo, h, h2, h3, h4, parseGo_false_spec]

/-- Two revocation states with equal fields are equal. -/
theorem rev_eq {r1 r2 : Revocations} (hd : r1.date = r2.date)
    (hc : r1.components = r2.components) : r1 = r2 := by
  cases r1
  cases r2
  simp_all

/-- Full characterization of `Revocations::parse`: the date follows
`parseDateResult` and the storage and error follow `componentsGo` run on
the cleared storage. -/
theorem parse_spec (r : Revocations) (input : List Nat) :
    r.parse input =
      ({ date := parseDateResult r.date input,
         components := (componentsGo (recordsOf input) r.components.clear).1 },
       (componentsGo (recordsOf input) r.components.clear).2) := by
  have hc := parseGo_true_components (recordsOf input)
    { r with components := r.components.clear }
  apply Prod.ext
  · apply rev_eq
    · unfold parseDateResult
      cases hrecs : recordsOf input with
      | nil => simp [Revocations.parse, hrecs, parseGo]
      | cons rec rest =>
        cases h1 : validateRecord rec with
        | some e =>
          simp [Revocations.parse, hrecs, h1,
            parseGo_true_invalid rec rest _ e h1]
        | none =>
          simp [Revocations.parse, hrecs, h1,
            parseGo_true_valid_date rec rest _ h1]
    · exact hc.1
  · exact hc.2

/-- First-match characterization of `List.find?`. -/
theorem find_first_iff {α : Type} (p : α → Bool) (l : List α) (a : α) :
    l.find? p = some a ↔
      ∃ l1 l2, l = l1 ++ a :: l2 ∧ p a = true ∧ ∀ x ∈ l1, p x = false := by
  induction l with
  | nil => simp
  | cons b t ih =>
    cases hb : p b with
    | true =>
      simp only [List.find?, hb]
      constructor
      · intro h
        cases h
        exact ⟨[], t, rfl, hb, by simp⟩
      · rintro ⟨l1, l2, heq, hpa, hall⟩
        cases l1 with
        | nil =>
          simp only [List.nil_append] at heq
          cases heq
          rfl
        | cons c l1t =>
          simp only [List.cons_append] at heq
          cases heq
          have := hall b (by simp)
          rw [hb] at this
          cases this
    | false =>
      simp only [List.find?, hb]
      rw [ih]
      constructor
      · rintro ⟨l1, l2, heq, hpa, hall⟩
        refine ⟨b :: l1, l2, by rw [heq]; rfl, hpa, ?_⟩
        intro x hx
        rcases List.mem_cons.mp hx with hx | hx
        · rw [hx]; exact hb
        · exact hall x hx
      · rintro ⟨l1, l2, heq, hpa, hall⟩
        cases l1 with
        | nil =>
          simp only [List.nil_append] at heq
          cases heq
          rw [hb] at hpa
          cases hpa
        | cons c l1t =>
          simp only [List.cons_append] at heq
          cases heq
          exact ⟨l1t, l2, rfl, hpa, fun x hx => hall x (by simp [hx])⟩

/-- The linear scan of `is_component_revoked` succeeds exactly when some
stored component has an equal name and a strictly greater generation. -/
theorem is_component_revoked_iff (r : Revocations) (n : List Nat) (g : Nat) :
    r.is_component_revoked ⟨n, g⟩ = true ↔
      ∃ c ∈ r.components.data, n = c.name ∧ g < c.generation := by
  simp [Revocations.is_component_revoked, List.any_eq_true]

/-- C1 (counterexample): with the duplicate-name store holding the entries
(name a, generation 1) and (name a, generation 3), the stored entry with
threshold 1 does not make the component (a, 2) allowed: gen 2 is at least
the threshold 1, yet the component is revoked, refuting the claim that
`is_component_revoked` is false for all gen greater than or equal to a
stored entry's threshold. -/
theorem is_component_revoked_threshold_counterexample :
    Component.mk [97] 1 ∈
      (Revocations.mk none
        (Store.mk 2 [Component.mk [97] 1, Component.mk [97] 3])).components.data ∧
    1 ≤ 2 ∧
    (Revocations.mk none
        (Store.mk 2 [Component.mk [97] 1, Component.mk [97] 3])).is_component_revoked
      (Component.mk [97] 2) = true := by
  decide

/-- C1 (amended): `is_component_revoked` is true exactly when some stored
component has a byte-equal name and a strictly greater generation; it is
false whenever the name is absent from the store; for every stored entry
(name, threshold) it is true for all gen below the threshold; and it is
false for all gen at or above the threshold provided the threshold is
maximal among the stored entries carrying that name (in particular when the
name is stored only once). -/
theorem is_component_revoked_spec (r : Revocations) (n : List Nat) (g : Nat) :
    (r.is_component_revoked ⟨n, g⟩ = true ↔
      ∃ c ∈ r.components.data, n = c.name ∧ g < c.generation) ∧
    ((∀ c ∈ r.components.data, c.name ≠ n) →
      r.is_component_revoked ⟨n, g⟩ = false) ∧
    (∀ c ∈ r.components.data, c.name = n → g < c.generation →
      r.is_component_revoked ⟨n, g⟩ = true) ∧
    (∀ t : Nat, (∀ c ∈ r.components.data, c.name = n → c.generation ≤ t) →
      t ≤ g → r.is_component_revoked ⟨n, g⟩ = false) := by
  have base := is_component_revoked_iff r n g
  refine ⟨base, ?_, ?_, ?_⟩
  · intro habs
    rw [← Bool.not_eq_true, base]
    rintro ⟨c, hc, hn, -⟩
    exact habs c hc hn.symm
  · intro c hc hn hg
    rw [base]
    exact ⟨c, hc, hn.symm, hg⟩
  · intro t hmax hge
    rw [← Bool.not_eq_true, base]
    rintro ⟨c, hc, hn, hg⟩
    have := hmax c hc hn.symm
    omega

/-- C1 (witness): in the singleton store holding (a, 2), the component
(a, 1) is revoked, (b, 5) is allowed because its name is absent, and (a, 2)
is allowed because its generation reaches the threshold. -/
theorem is_component_revoked_spec_witness :
    (Revocations.mk none (Store.mk 1 [Component.mk [97] 2])).is_component_revoked
        (Component.mk [97] 1) = true ∧
    (Revocations.mk none (Store.mk 1 [Component.mk [97] 2])).is_component_revoked
        (Component.mk [98] 5) = false ∧
    (Revocations.mk none (Store.mk 1 [Component.mk [97] 2])).is_component_revoked
        (Component.mk [97] 2) = false :=
  ⟨(is_component_revoked_spec _ [97] 1).2.2.1 (Component.mk [97] 2)
      (by decide) (by decide) (by decide),
   (is_component_revoked_spec _ [98] 5).2.1 (by decide),
   (is_component_revoked_spec _ [97] 2).2.2.2 2 (by decide) (by decide)⟩

/-- C2: `validate_metadata` returns `Allowed` exactly when no entry's
component is revoked, and returns `Revoked` on exactly the first entry, in
declaration order, whose component is revoked. -/
theorem validate_metadata_first (r : Revocations) (m : Metadata) :
    (r.validate_metadata m = ValidationResult.Allowed ↔
      ∀ e ∈ m.entries, r.is_component_revoked e.component = false) ∧
    (∀ en : Entry, r.validate_metadata m = ValidationResult.Revoked en ↔
      ∃ l1 l2, m.entries = l1 ++ en :: l2 ∧
        r.is_component_revoked en.component = true ∧
        ∀ x ∈ l1, r.is_component_revoked x.component = false) := by
  have keyA : r.validate_metadata m = ValidationResult.Allowed ↔
      m.entries.find? (fun entry => r.is_component_revoked entry.component)
        = none := by
    unfold Revocations.validate_metadata
    cases hf : m.entries.find?
        (fun entry => r.is_component_revoked entry.component) with
    | none => simp
    | some e0 => simp
  have keyR : ∀ en : Entry, r.validate_metadata m = ValidationResult.Revoked en ↔
      m.entries.find? (fun entry => r.is_component_revoked entry.component)
        = some en := by
    intro en
    unfold Revocations.validate_metadata
    cases hf : m.entries.find?
        (fun entry => r.is_component_revoked entry.component) with
    | none => simp
    | some e0 => simp
  constructor
  · rw [keyA, List.find?_eq_none]
    constructor
    · intro h e he
      have := h e he
      rwa [Bool.not_eq_true] at this
    · intro h e he
      rw [Bool.not_eq_true]
      exact h e he
  · intro en
    rw [keyR en, find_first_iff]

/-- C2 (witness): against the store holding (a, 2), the metadata sequence
with entries (c, 1) then (a, 1) is rejected at its second entry, the first
revoked one. -/
theorem validate_metadata_first_witness :
    (Revocations.mk none (Store.mk 2 [Component.mk [97] 2])).validate_metadata
        (Metadata.mk [Entry.mk (Component.mk [99] 1) (Vendor.mk []),
                      Entry.mk (Component.mk [97] 1) (Vendor.mk [])]) =
      ValidationResult.Revoked (Entry.mk (Component.mk [97] 1) (Vendor.mk [])) :=
  ((validate_metadata_first _ _).2 _).mpr
    ⟨[Entry.mk (Component.mk [99] 1) (Vendor.mk [])], [],
      by decide, by decide, by decide⟩

/-- C10: revocation is downward-closed in the generation: if a component is
revoked at generation g, it is revoked at every generation below g. -/
theorem is_component_revoked_downward_closed (r : Revocations) (n : List Nat)
    (g g2 : Nat) (hle : g2 ≤ g)
    (h : r.is_component_revoked ⟨n, g⟩ = true) :
    r.is_component_revoked ⟨n, g2⟩ = true := by
  rw [is_component_revoked_iff] at h ⊢
  obtain ⟨c, hc, hn, hg⟩ := h
  exact ⟨c, hc, hn, by omega⟩

/-- C10 (witness): in the store holding (a, 3), revocation of (a, 2)
propagates down to (a, 1). -/
theorem is_component_revoked_downward_closed_witness :
    (Revocations.mk none (Store.mk 1 [Component.mk [97] 3])).is_component_revoked
      (Component.mk [97] 1) = true :=
  is_component_revoked_downward_closed _ [97] 2 1 (by decide) (by decide)

/-- C3 (counterexample): parse the input with the single record (a, 1, date
d) into a fresh store, then parse the empty input on the same store.  Both
calls succeed, yet the date produced by the first parse survives the
second one, refuting the claim that the date from a previous parse never
survives. -/
theorem parse_stale_date_counterexample :
    ((Revocations.new (Store.mk 2 [])).parse (bytes "a,1,d")).2 = none ∧
    ((Revocations.new (Store.mk 2 [])).parse (bytes "a,1,d")).1.date
      = some (bytes "d") ∧
    ((((Revocations.new (Store.mk 2 [])).parse (bytes "a,1,d")).1.parse
        (bytes "")).2 = none) ∧
    ((((Revocations.new (Store.mk 2 [])).parse (bytes "a,1,d")).1.parse
        (bytes "")).1.date = some (bytes "d")) := by
  decide

/-- C3 (amended): `parse` first clears the component storage, so the
resulting components and error are those of a parse into a fresh store of
the same capacity, and no component entry from a previous parse survives
(whether the call succeeds or fails).  The date, however, is only
overwritten when the first record of the input reaches the per-record
handler: it becomes that record's third field when the first record's
characters validate, and the previous date survives when the input has no
records or its first record fails character validation. -/
theorem parse_clears_components (r : Revocations) (input : List Nat) :
    ((r.parse input).1.components =
        ((Revocations.new (Store.mk r.components.cap [])).parse input).1.components ∧
      (r.parse input).2 =
        ((Revocations.new (Store.mk r.components.cap [])).parse input).2) ∧
    (recordsOf input = [] → (r.parse input).1.date = r.date) ∧
    (∀ rec rest, recordsOf input = rec :: rest → validateRecord rec = none →
      (r.parse input).1.date = getField (fieldsOf rec) 2) ∧
    (∀ rec rest e, recordsOf input = rec :: rest →
      validateRecord rec = some e →
      (r.parse input).1.date = r.date ∧ (r.parse input).2 = some e) := by
  rw [parse_spec r input, parse_spec (Revocations.new (Store.mk r.components.cap [])) input]
  refine ⟨⟨rfl, rfl⟩, ?_, ?_, ?_⟩
  · intro h
    simp [parseDateResult, h]
  · intro rec rest hrecs hval
    simp [parseDateResult, hrecs, hval]
  · intro rec rest e hrecs hval
    constructor
    · simp [parseDateResult, hrecs, hval]
    · simp [componentsGo, hrecs, hval]

/-- C3 (witness): parsing the record (a, 1, d) over a store pre-seeded with
a stale date and a stale component yields the same components and result
as parsing into a fresh store, and sets the date to d. -/
theorem parse_clears_components_witness :
    ((Revocations.mk (some (bytes "x"))
        (Store.mk 2 [Component.mk [122] 9])).parse (bytes "a,1,d")).1.components =
      ((Revocations.new (Store.mk 2 [])).parse (bytes "a,1,d")).1.components ∧
    ((Revocations.mk (some (bytes "x"))
        (Store.mk 2 [Component.mk [122] 9])).parse (bytes "a,1,d")).1.date =
      some (bytes "d") :=
  ⟨(parse_clears_components
      (Revocations.mk (some (bytes "x")) (Store.mk 2 [Component.mk [122] 9]))
      (bytes "a,1,d")).1.1,
   ((parse_clears_components
      (Revocations.mk (some (bytes "x")) (Store.mk 2 [Component.mk [122] 9]))
      (bytes "a,1,d")).2.2.1 [97, 44, 49, 44, 100] [] (by decide)
        (by decide)).trans (by decide)⟩

/-- C4 (counterexample): with capacity 1 and the input holding the records
(a, 1) and (b!, 1), the record count 2 exceeds the capacity, yet parse
fails with the character error for the exclamation mark rather than with
`TooManyRecords`, refuting the claim that every over-capacity input fails
with `TooManyRecords`. -/
theorem parse_capacity_error_counterexample :
    1 < (recordsOf (bytes "a,1\nb!,1")).length ∧
    ((Revocations.new (Store.mk 1 [])).parse (bytes "a,1\nb!,1")).2
      = some (Error.specialChar 33) ∧
    ((Revocations.new (Store.mk 1 [])).parse (bytes "a,1\nb!,1")).2
      ≠ some Error.tooManyRecords := by
  decide

/-- C4 (amended): a successful parse stores exactly one component per
record of the input, so no input is ever silently truncated; whenever the
record count exceeds the capacity of the (cleared) destination storage the
parse fails; and when in addition every record is well-formed, the failure
is precisely `TooManyRecords`. -/
theorem parse_no_silent_truncation (r : Revocations) (input : List Nat) :
    ((r.parse input).2 = none →
      (r.parse input).1.components.data.length = (recordsOf input).length) ∧
    (r.components.cap < (recordsOf input).length → (r.parse input).2 ≠ none) ∧
    ((∀ rec ∈ recordsOf input, recordOk rec = true) →
      r.components.cap < (recordsOf input).length →
      (r.parse input).2 = some Error.tooManyRecords) := by
  rw [parse_spec r input]
  have hclear : r.components.clear = Store.mk r.components.cap [] := rfl
  refine ⟨?_, ?_, ?_⟩
  · intro h
    have := componentsGo_ok_length (recordsOf input) r.components.clear h
    rw [hclear] at this
    simpa using this
  · intro hgt h
    have hlen := componentsGo_ok_length (recordsOf input) r.components.clear h
    have hle := componentsGo_le (recordsOf input) r.components.clear
      (by rw [hclear]; simp)
    rw [hclear] at hlen hle
    simp at hlen hle
    omega
  · intro hok hgt
    apply componentsGo_overflow (recordsOf input) r.components.clear hok
    · rw [hclear]; simp
    · rw [hclear]; simpa using hgt

/-- C4 (witness): with capacity 1, the two well-formed records (a, 1) and
(b, 1) exceed the destination capacity and parsing fails with
`TooManyRecords`. -/
theorem parse_no_silent_truncation_witness :
    ((Revocations.new (Store.mk 1 [])).parse (bytes "a,1\nb,1")).2
      = some Error.tooManyRecords :=
  (parse_no_silent_truncation (Revocations.new (Store.mk 1 []))
      (bytes "a,1\nb,1")).2.2 (by decide) (by decide)

/-- C5: parsing the same input twice in a row yields a store state (date
and components) identical to parsing it once. -/
theorem parse_idempotent (r : Revocations) (input : List Nat) :
    ((r.parse input).1.parse input).1 = (r.parse input).1 := by
  have hcap := componentsGo_cap (recordsOf input) r.components.clear
  rw [parse_spec r input]
  rw [parse_spec]
  apply rev_eq
  · show parseDateResult (parseDateResult r.date input) input
      = parseDateResult r.date input
    unfold parseDateResult
    cases hrecs : recordsOf input with
    | nil => rfl
    | cons rec rest =>
      cases hval : validateRecord rec with
      | none => simp [hval]
      | some e => simp [hval]
  · show (componentsGo (recordsOf input)
        ((componentsGo (recordsOf input) r.components.clear).1.clear)).1 =
      (componentsGo (recordsOf input) r.components.clear).1
    have h2 : (componentsGo (recordsOf input) r.components.clear).1.clear
        = r.components.clear := by
      show Store.mk (componentsGo (recordsOf input) r.components.clear).1.cap []
        = r.components.clear
      rw [hcap]
      rfl
    rw [h2]

/-- C6: parsing the three-record example input succeeds, captures the first
record's third field as the date, and stores all three records, the first
included, as components in order. -/
theorem parse_roundtrip_example :
    (Revocations.new (Store.mk 3 [])).parse
        (bytes "sbat,1,2021030218\ncompA,1\ncompB,2") =
      (Revocations.mk (some (bytes "2021030218"))
        (Store.mk 3 [Component.mk (bytes "sbat") 1,
                     Component.mk (bytes "compA") 1,
                     Component.mk (bytes "compB") 2]),
       none) := by
  decide

/-- C7: parsing the empty input over any freshly wrapped storage succeeds
and leaves zero components and no date. -/
theorem parse_empty_input (storage : Store) :
    (Revocations.new storage).parse (bytes "") =
      (Revocations.mk none (Store.mk storage.cap []), none) :=
  rfl

/-- C8: parsing the single one-field record input fails with
`TooFewFields`. -/
theorem parse_single_field_record :
    (Revocations.new (Store.mk 2 [])).parse (bytes "sbat") =
      (Revocations.mk none (Store.mk 2 []), some Error.tooFewFields) := by
  decide

/-- C9: `new` wraps the caller-supplied storage as-is, pre-seeded contents
included, and starts with no date; the revoked-components view is exactly
the passed-in sequence. -/
theorem new_preserves_storage (storage : Store) :
    (Revocations.new storage).components = storage ∧
    (Revocations.new storage).date = none ∧
    (Revocations.new storage).revoked_components = storage.data :=
  ⟨rfl, rfl, rfl⟩

end Sbat
